import Mathlib

/-!
Shallow embedding of the `mrpro` repository fragment:
`src/mrpro/operators/Functional.py` (the `Functional`, `ElementaryFunctional`
and `ProximableFunctional` class hierarchy) and `tests/helper.py`
(`relative_image_difference`, `dotproduct_adjointness_test`).

Tensors are modelled with rational entries; a complex entry is a pair
(real part, imaginary part).  Float literals of the source (`1e-8`, `1e-6`)
are embedded as the exact rationals they denote.  In-place mutation of the
`sigma` argument of `prox_convex_conj` is modelled by returning the final
state of the tensor alongside the result.  Python exceptions are modelled
with `Except`.
-/

set_option autoImplicit false

namespace Mrpro

/-- A complex number with rational components: (real part, imaginary part). -/
abbrev Cq := ℚ × ℚ

/-- Complex conjugate. -/
def cconj (a : Cq) : Cq := (a.1, -a.2)

/-- Complex multiplication. -/
def cmul (a b : Cq) : Cq := (a.1 * b.1 - a.2 * b.2, a.1 * b.2 + a.2 * b.1)

/-- Complex division (componentwise formula; division by zero yields 0,
matching rational-division conventions). -/
def cdiv (a b : Cq) : Cq :=
  let d := b.1 * b.1 + b.2 * b.2
  ((a.1 * b.1 + a.2 * b.2) / d, (a.2 * b.1 - a.1 * b.2) / d)

/-- A torch tensor: a shape, a flat data buffer, and a complex-dtype flag.
Real-dtype tensors are represented with zero imaginary parts. -/
structure Tensor where
  shape : List Nat
  data : List Cq
  isComplex : Bool
  deriving DecidableEq, Repr

/-- Elementwise binary operation of two tensors; a one-element operand is
broadcast against the other (the only broadcasting the claims exercise). -/
def Tensor.ew (f : Cq → Cq → Cq) (a b : Tensor) : Tensor :=
  if a.data.length = 1 ∧ b.data.length ≠ 1 then
    ⟨b.shape, b.data.map (fun y => f a.data.headI y), a.isComplex || b.isComplex⟩
  else if b.data.length = 1 ∧ a.data.length ≠ 1 then
    ⟨a.shape, a.data.map (fun x => f x b.data.headI), a.isComplex || b.isComplex⟩
  else
    ⟨a.shape, List.zipWith f a.data b.data, a.isComplex || b.isComplex⟩

/-- Elementwise subtraction `a - b`. -/
def Tensor.sub (a b : Tensor) : Tensor := Tensor.ew (fun x y => x - y) a b

/-- Elementwise product `a * b`. -/
def Tensor.mul (a b : Tensor) : Tensor := Tensor.ew cmul a b

/-- Elementwise quotient `a / b`. -/
def Tensor.div (a b : Tensor) : Tensor := Tensor.ew cdiv a b

/-- The tensor `1 / b`: the Python expression `1 / sigma` with `sigma` a
tensor, i.e. the elementwise reciprocal. -/
def Tensor.recip (b : Tensor) : Tensor :=
  ⟨b.shape, b.data.map (fun y => cdiv (1, 0) y), b.isComplex⟩

/-- Divide every entry of a tensor by a real scalar. -/
def Tensor.divScalar (a : Tensor) (q : ℚ) : Tensor :=
  ⟨a.shape, a.data.map (fun x => (x.1 / q, x.2 / q)), a.isComplex⟩

/-- Inputs accepted (or rejected) by `Functional._throw_if_negative_or_complex`:
a real scalar (Python `float` or `int`), a complex scalar (Python `complex`,
which is neither `float | int` nor a tensor), a tensor, or anything else. -/
inductive CheckInput where
  | realScalar (q : ℚ)
  | complexScalar (re im : ℚ)
  | tensor (t : Tensor)
  | other
  deriving DecidableEq

/-- The guard condition of `Functional._throw_if_negative_or_complex`:
`x` is a non-negative real scalar (Python `float | int`), or a tensor of
non-complex dtype all of whose entries are `>= 0`. -/
def checkPasses : CheckInput → Prop
  | .realScalar q => 0 ≤ q
  | .tensor t => t.isComplex = false ∧ ∀ c ∈ t.data, 0 ≤ c.1
  | _ => False

instance decCheckPasses : DecidablePred checkPasses := fun x => by
  cases x <;> simp only [checkPasses] <;> infer_instance

/-- Embedding of `Functional._throw_if_negative_or_complex(x, message)`:
returns silently when the guard condition holds; raises `ValueError(message)`
otherwise. -/
def throwIfNegativeOrComplex (x : CheckInput) (message : String) : Except String Unit :=
  if checkPasses x then
    .ok ()
  else
    .error message

/-- The default error message of `_throw_if_negative_or_complex`. -/
def sigmaMessage : String := "sigma must be real and contain only positive values"

/-- The Python values the `dim` argument of `ElementaryFunctional.__init__`
ranges over, per its annotation `int | Sequence[int] | None`: `None`, a bare
`int`, a `tuple` of ints, or another `Sequence` of ints (such as a `list`).
The same type is used for the stored `self.dim`. -/
inductive PyDim where
  | none
  | int (i : Int)
  | tuple (l : List Int)
  | seq (l : List Int)
  deriving DecidableEq, Repr

/-- The `dim` normalization of `ElementaryFunctional.__init__`: a bare int is
wrapped into a one-element tuple, any `Sequence` is materialized into a tuple,
and anything else (here only `None`) is stored unchanged. -/
def normalizeDim : PyDim → PyDim
  | .int i => .tuple [i]
  | .tuple l => .tuple l
  | .seq l => .tuple l
  | .none => .none

/-- State of an `ElementaryFunctional` after `__init__`. -/
structure ElementaryFunctional where
  weight : Tensor
  target : Tensor
  dim : PyDim
  divide_by_n : Bool
  keepdim : Bool
  deriving DecidableEq

/-- Embedding of `ElementaryFunctional.__init__`: `target=None` defaults to
the real scalar-tensor 0, and `dim` is normalized. -/
def mkElementaryFunctional (weight : Tensor) (target : Option Tensor) (dim : PyDim)
    (divide_by_n : Bool) (keepdim : Bool) : ElementaryFunctional :=
  ⟨weight, target.getD ⟨[], [(0, 0)], false⟩, normalizeDim dim, divide_by_n, keepdim⟩

/-- Python list indexing `l[i]`, with negative indices counting from the end;
`none` models an `IndexError`. -/
def pyIndex (l : List Nat) (i : Int) : Option Nat :=
  let j : Int := if i < 0 then i + l.length else i
  if 0 ≤ j then l[j.toNat]? else Option.none

/-- Embedding of `ElementaryFunctional._divide_by_n(x, shape)`: the identity
when `divide_by_n` is false; otherwise `x` is divided elementwise by the
product of the sizes of `shape` (defaulting to `x.shape`) at the axes listed
in `self.dim`, or of all its sizes when `self.dim` is `None`.  `none` models
a raised exception: an `IndexError` from `shape[i]`, or the `TypeError` from
iterating `self.dim` were it a bare int. -/
def ElementaryFunctional.divideByN (self : ElementaryFunctional) (x : Tensor)
    (shape : Option (List Nat)) : Option Tensor :=
  if !self.divide_by_n then
    some x
  else
    let shp := shape.getD x.shape
    let size : Option (List Nat) :=
      match self.dim with
      | .none => some shp
      | .tuple l => l.mapM (pyIndex shp)
      | .seq l => l.mapM (pyIndex shp)
      | .int _ => Option.none
    size.map (fun s => x.divScalar (s.prod : ℚ))

/-- The float literal `1e-8` of `prox_convex_conj`, as an exact rational. -/
def smallSigma : ℚ := 1 / 100000000

/-- The float literal `1e-6` of `prox_convex_conj`, as an exact rational. -/
def sigmaBump : ℚ := 1 / 1000000

/-- The in-place update `sigma[sigma < 1e-8] += 1e-6` on one entry. -/
def clampEntry (c : Cq) : Cq :=
  if c.1 < smallSigma then (c.1 + sigmaBump, c.2) else c

/-- The `sigma` argument of `prox` and `prox_convex_conj`: a Python scalar or
a tensor. -/
inductive SigmaArg where
  | scalar (q : ℚ)
  | tensor (t : Tensor)
  deriving DecidableEq

/-- The conversion `torch.as_tensor(1.0 * sigma)` applied to a scalar; a
tensor is left as is. -/
def SigmaArg.toTensor : SigmaArg → Tensor
  | .scalar q => ⟨[], [(q, 0)], false⟩
  | .tensor t => t

/-- Embedding of `ProximableFunctional.prox_convex_conj(x, sigma)`, with the
subclass `prox` implementation passed as a function.  The second component of
the result is the final state of the (in-place mutated) `sigma` tensor: on a
validation error it is the unmodified input, otherwise it is the clamped
tensor that the Moreau computation `x - sigma * prox(x / sigma, 1 / sigma)`
then uses. -/
def proxConvexConj (prox : Tensor → Tensor → Tensor) (x : Tensor) (sigma : SigmaArg) :
    Except String Tensor × Tensor :=
  let s := sigma.toTensor
  match throwIfNegativeOrComplex (.tensor s) sigmaMessage with
  | .error m => (.error m, s)
  | .ok _ =>
    let s2 : Tensor := ⟨s.shape, s.data.map clampEntry, s.isComplex⟩
    (.ok (x.sub (s2.mul (prox (x.div s2) s2.recip))), s2)

/-- A real-valued image tensor, the inputs `tests/helper.py`'s
`relative_image_difference` is embedded for (`torch.abs` on a real tensor is
the rational absolute value; the complex-modulus case is irrational and out
of scope of the rational embedding). -/
structure RImage where
  shape : List Nat
  data : List ℚ
  deriving DecidableEq, Repr

/-- `torch.mean` of a flat buffer of values: sum divided by element count. -/
def tmean (l : List ℚ) : ℚ := l.sum / l.length

/-- Embedding of `relative_image_difference(img1, img2)`: the mean absolute
difference divided by `0.5 * mean(|img1| + |img2|)`, raising `ValueError`
when that divisor is exactly zero. -/
def relativeImageDifference (img1 img2 : RImage) : Except String ℚ :=
  let image_difference := tmean (List.zipWith (fun a b => |a - b|) img1.data img2.data)
  let image_mean := (1 / 2 : ℚ) * tmean (List.zipWith (fun a b => |a| + |b|) img1.data img2.data)
  if image_mean = 0 then
    .error "average of images should be larger than 0"
  else
    .ok (image_difference / image_mean)

/-- `torch.vdot` of two flat buffers: the sum of `conj(a_i) * b_i`. -/
def vdot (a b : List Cq) : Cq := (List.zipWith (fun x y => cmul (cconj x) y) a b).sum

/-- The closeness check of `torch.testing.assert_close(actual, expected)` on
two complex scalars: real and imaginary components are each close when
`|actual - expected| <= atol + rtol * |expected|`. -/
def assertCloseOk (actual expected : Cq) (rtol atol : ℚ) : Bool :=
  decide (|actual.1 - expected.1| ≤ atol + rtol * |expected.1|) &&
  decide (|actual.2 - expected.2| ≤ atol + rtol * |expected.2|)

/-- Which assertion of `dotproduct_adjointness_test` fails. -/
inductive AdjointnessFailure where
  | forwardShape
  | adjointShape
  | notClose
  deriving DecidableEq, Repr

/-- Embedding of `dotproduct_adjointness_test(operator, u, v, rtol, atol)`.
The operator's forward and adjoint calls (each returning the unpacked single
tensor) are passed as functions.  The two shape assertions run first, then
`torch.vdot` of the flattened tensors is compared by
`torch.testing.assert_close`. -/
def dotproductAdjointnessTest (forward adjoint : Tensor → Tensor) (u v : Tensor)
    (rtol atol : ℚ) : Except AdjointnessFailure Unit :=
  let forward_u := forward u
  let adjoint_v := adjoint v
  if forward_u.shape ≠ v.shape then
    .error .forwardShape
  else if adjoint_v.shape ≠ u.shape then
    .error .adjointShape
  else
    let dotproduct_range := vdot forward_u.data v.data
    let dotproduct_domain := vdot u.data adjoint_v.data
    if assertCloseOk dotproduct_range dotproduct_domain rtol atol then
      .ok ()
    else
      .error .notClose

/-! Helper lemmas shared by the claim theorems. -/

theorem aux_map_fix {α : Type} (f : α → α) (l : List α) (h : ∀ c ∈ l, f c = c) :
    l.map f = l := by
  rw [List.map_congr_left h]; simp

theorem aux_sum_map_zero {α : Type} (l : List α) : (l.map (fun _ => (0 : ℚ))).sum = 0 := by
  induction l with
  | nil => rfl
  | cons a t ih => simp [ih]

theorem aux_sum_map_double {α : Type} (l : List α) (f : α → ℚ) :
    (l.map (fun a => f a + f a)).sum = 2 * (l.map f).sum := by
  induction l with
  | nil => simp
  | cons a t ih => simp [ih]; ring

theorem aux_zipWith_self {α β : Type} (f : α → α → β) (l : List α) :
    List.zipWith f l l = l.map (fun a => f a a) := by
  induction l with
  | nil => rfl
  | cons a t ih => simp [ih]

/-- Claim C3: `_throw_if_negative_or_complex(x, message)` returns without error
iff `x` is a non-negative real scalar, or a tensor of non-complex dtype whose
every entry is at least 0; in every other case it raises a `ValueError`
carrying the supplied message. -/
theorem throw_if_negative_or_complex_spec (x : CheckInput) (message : String) :
    (throwIfNegativeOrComplex x message = .ok () ↔
      (∃ q, x = .realScalar q ∧ 0 ≤ q) ∨
      (∃ t, x = .tensor t ∧ t.isComplex = false ∧ ∀ c ∈ t.data, 0 ≤ c.1)) ∧
    (throwIfNegativeOrComplex x message = .ok () ∨
      throwIfNegativeOrComplex x message = .error message) := by
  constructor
  · constructor
    · intro hok
      have h : checkPasses x := by
        by_contra hnot
        simp [throwIfNegativeOrComplex, hnot] at hok
      cases x with
      | realScalar q => exact Or.inl ⟨q, rfl, h⟩
      | complexScalar re im => exact absurd h (by simp [checkPasses])
      | tensor t => exact Or.inr ⟨t, rfl, h.1, h.2⟩
      | other => exact absurd h (by simp [checkPasses])
    · rintro (⟨q, rfl, hq⟩ | ⟨t, rfl, hcompl, hall⟩)
      · have h : checkPasses (.realScalar q) := hq
        simp [throwIfNegativeOrComplex, h]
      · have h : checkPasses (.tensor t) := ⟨hcompl, hall⟩
        simp [throwIfNegativeOrComplex, h]
  · by_cases h : checkPasses x
    · exact Or.inl (by simp [throwIfNegativeOrComplex, h])
    · exact Or.inr (by simp [throwIfNegativeOrComplex, h])

/-- Claim C3 witness: the non-negative real scalar 1 passes the guard. -/
theorem throw_if_negative_or_complex_spec_witness :
    throwIfNegativeOrComplex (.realScalar 1) sigmaMessage = .ok () :=
  (throw_if_negative_or_complex_spec (.realScalar 1) sigmaMessage).1.mpr
    (Or.inl ⟨1, rfl, by norm_num⟩)

/-- Claim C5: the `dim` stored by `ElementaryFunctional.__init__` is always
`None` or a tuple of ints: a bare int is wrapped into a one-element tuple, any
other sequence is materialized into a tuple, and `None` stays `None`. -/
theorem dim_normalization_invariant (weight : Tensor) (target : Option Tensor)
    (dim : PyDim) (divide_by_n keepdim : Bool) :
    ((mkElementaryFunctional weight target dim divide_by_n keepdim).dim = .none ∨
      ∃ l, (mkElementaryFunctional weight target dim divide_by_n keepdim).dim = .tuple l) ∧
    (∀ i, dim = .int i →
      (mkElementaryFunctional weight target dim divide_by_n keepdim).dim = .tuple [i]) ∧
    (∀ l, dim = .seq l →
      (mkElementaryFunctional weight target dim divide_by_n keepdim).dim = .tuple l) ∧
    (∀ l, dim = .tuple l →
      (mkElementaryFunctional weight target dim divide_by_n keepdim).dim = .tuple l) ∧
    (dim = .none →
      (mkElementaryFunctional weight target dim divide_by_n keepdim).dim = .none) := by
  cases dim <;> simp [mkElementaryFunctional, normalizeDim]

/-- Claim C5 witness: a bare int `dim` is stored as a one-element tuple. -/
theorem dim_normalization_invariant_witness :
    (mkElementaryFunctional ⟨[], [(1, 0)], false⟩ Option.none (.int 3) false false).dim =
      .tuple [3] :=
  (dim_normalization_invariant ⟨[], [(1, 0)], false⟩ Option.none (.int 3) false false).2.1 3 rfl

/-- Claim C8: with `divide_by_n=False`, `_divide_by_n(x, shape)` returns `x`
unchanged for every input tensor and every `shape` argument. -/
theorem divide_by_n_false_identity (weight : Tensor) (target : Option Tensor) (dim : PyDim)
    (keepdim : Bool) (x : Tensor) (shape : Option (List Nat)) :
    (mkElementaryFunctional weight target dim false keepdim).divideByN x shape = some x := by
  simp [mkElementaryFunctional, ElementaryFunctional.divideByN]

theorem aux_divideByN_dim_none (ef : ElementaryFunctional) (x : Tensor)
    (shape : Option (List Nat)) (hdn : ef.divide_by_n = true) (hdim : ef.dim = .none) :
    ef.divideByN x shape = some (x.divScalar ((shape.getD x.shape).prod : ℚ)) := by
  obtain ⟨w, t, d, dn, k⟩ := ef
  cases hdim; cases hdn
  simp [ElementaryFunctional.divideByN]

theorem aux_divideByN_dim_tuple (ef : ElementaryFunctional) (x : Tensor)
    (shape : Option (List Nat)) (l : List Int) (s : List Nat) (hdn : ef.divide_by_n = true)
    (hdim : ef.dim = .tuple l) (hmap : l.mapM (pyIndex (shape.getD x.shape)) = some s) :
    ef.divideByN x shape = some (x.divScalar (s.prod : ℚ)) := by
  obtain ⟨w, t, d, dn, k⟩ := ef
  cases hdim; cases hdn
  have hmap2 : List.mapM.loop (pyIndex (shape.getD x.shape)) l [] = some s := hmap
  simp [ElementaryFunctional.divideByN, hmap2]

/-- Claim C8 witness: a concrete instance of the identity behaviour. -/
theorem divide_by_n_false_identity_witness :
    (mkElementaryFunctional ⟨[], [(1, 0)], false⟩ Option.none .none false
      false).divideByN ⟨[2], [(1, 0), (2, 0)], false⟩ Option.none =
      some ⟨[2], [(1, 0), (2, 0)], false⟩ :=
  divide_by_n_false_identity ⟨[], [(1, 0)], false⟩ Option.none .none false
    ⟨[2], [(1, 0), (2, 0)], false⟩ Option.none

/-- Claim C4: with `divide_by_n=True`, `_divide_by_n(x, shape)` divides `x`
elementwise by the product of the sizes of the reference shape (the `shape`
argument, or `x`'s own shape when it is `None`) at the axes listed in `dim`;
with `dim=None` the divisor is the product of every axis size, and with
`dim=(i,)` it is exactly the size along axis `i`. -/
theorem divide_by_n_true_spec (weight : Tensor) (target : Option Tensor) (dim : PyDim)
    (keepdim : Bool) (x : Tensor) (shape : Option (List Nat)) :
    ((mkElementaryFunctional weight target dim true keepdim).dim = .none →
      (mkElementaryFunctional weight target dim true keepdim).divideByN x shape =
        some (x.divScalar ((shape.getD x.shape).prod : ℚ))) ∧
    (∀ l s, (mkElementaryFunctional weight target dim true keepdim).dim = .tuple l →
      l.mapM (pyIndex (shape.getD x.shape)) = some s →
      (mkElementaryFunctional weight target dim true keepdim).divideByN x shape =
        some (x.divScalar (s.prod : ℚ))) ∧
    (∀ i n, (mkElementaryFunctional weight target dim true keepdim).dim = .tuple [i] →
      pyIndex (shape.getD x.shape) i = some n →
      (mkElementaryFunctional weight target dim true keepdim).divideByN x shape =
        some (x.divScalar (n : ℚ))) := by
  refine ⟨fun h => aux_divideByN_dim_none _ x shape rfl h,
    fun l s h hmap => aux_divideByN_dim_tuple _ x shape l s rfl h hmap,
    fun i n h hidx => ?_⟩
  have hmap : [i].mapM (pyIndex (shape.getD x.shape)) = some [n] := by
    simp [List.mapM.loop, hidx]
  simpa using aux_divideByN_dim_tuple _ x shape [i] [n] rfl h hmap

/-- A `sigma` argument whose every entry (after tensor conversion) is at
least `1e-8`, so that it passes validation and the small-entry clamp of
`prox_convex_conj` leaves it unchanged. -/
def SigmaArg.clampFree : SigmaArg → Prop
  | .scalar q => smallSigma ≤ q
  | .tensor t => t.isComplex = false ∧ ∀ c ∈ t.data, smallSigma ≤ c.1

theorem aux_clampFree_toTensor (sigma : SigmaArg) (h : sigma.clampFree) :
    sigma.toTensor.isComplex = false ∧ ∀ c ∈ sigma.toTensor.data, smallSigma ≤ c.1 := by
  cases sigma with
  | scalar q => exact ⟨rfl, by simpa [SigmaArg.toTensor] using h⟩
  | tensor t => exact h

theorem aux_smallSigma_pos : (0 : ℚ) < smallSigma := by norm_num [smallSigma]

/-- Claim C1 (amended): when every entry of `sigma` (after tensor conversion)
is at least `1e-8` — so the scalar branch also requires `sigma >= 1e-8` —
`prox_convex_conj(x, sigma)` returns `x - sigma * prox(x / sigma, 1 / sigma)`
with `sigma` itself left unchanged. -/
theorem prox_convex_conj_moreau (prox : Tensor → Tensor → Tensor) (x : Tensor)
    (sigma : SigmaArg) (h : sigma.clampFree) :
    proxConvexConj prox x sigma =
      (.ok (x.sub (sigma.toTensor.mul
        (prox (x.div sigma.toTensor) sigma.toTensor.recip))), sigma.toTensor) := by
  obtain ⟨hcompl, hthr⟩ := aux_clampFree_toTensor sigma h
  have hok : checkPasses (.tensor sigma.toTensor) :=
    ⟨hcompl, fun c hc => le_trans (le_of_lt aux_smallSigma_pos) (hthr c hc)⟩
  have hval : throwIfNegativeOrComplex (.tensor sigma.toTensor) sigmaMessage = .ok () := by
    simp [throwIfNegativeOrComplex, hok]
  have hclamp : sigma.toTensor.data.map clampEntry = sigma.toTensor.data :=
    aux_map_fix _ _ (fun c hc => if_neg (not_lt.mpr (hthr c hc)))
  simp [proxConvexConj, hval, hclamp]

/-- Claim C1 counterexample: `sigma = 0.0` is a non-negative real scalar, yet
`prox_convex_conj` (here with the identity as the subclass `prox`) does not
return `x - sigma * prox(x / sigma, 1 / sigma)`, because the small-entry clamp
fires on the converted scalar and replaces it by `1e-6`. -/
theorem prox_convex_conj_moreau_counterexample :
    (0 : ℚ) ≤ 0 ∧
    (proxConvexConj (fun t _ => t) ⟨[], [(1, 0)], false⟩ (SigmaArg.scalar 0)).1 ≠
      .ok (Tensor.sub ⟨[], [(1, 0)], false⟩ ((SigmaArg.scalar 0).toTensor.mul
        ((fun (t _ : Tensor) => t)
          (Tensor.div ⟨[], [(1, 0)], false⟩ (SigmaArg.scalar 0).toTensor)
          (SigmaArg.scalar 0).toTensor.recip))) := by
  refine ⟨le_refl 0, ?_⟩
  norm_num [proxConvexConj, throwIfNegativeOrComplex, checkPasses, SigmaArg.toTensor,
    clampEntry, smallSigma, sigmaBump, Tensor.sub, Tensor.mul, Tensor.div, Tensor.ew,
    Tensor.recip, cmul, cdiv, Prod.ext_iff]

/-- Claim C6: for a tensor `sigma` that passes validation, every entry
strictly below `1e-8` is increased by `1e-6` in place (entries at or above
`1e-8` are kept) before `sigma` is used, and the result is the Moreau
expression computed from the clamped tensor, which the caller observes as the
final state of `sigma`. -/
theorem prox_convex_conj_clamps_sigma (prox : Tensor → Tensor → Tensor) (x t : Tensor)
    (h : throwIfNegativeOrComplex (.tensor t) sigmaMessage = .ok ()) :
    (∀ (i : ℕ) (c : Cq), t.data[i]? = some c →
      (proxConvexConj prox x (.tensor t)).2.data[i]? =
        some (if c.1 < smallSigma then (c.1 + sigmaBump, c.2) else c)) ∧
    (proxConvexConj prox x (.tensor t)).1 =
      .ok (x.sub ((proxConvexConj prox x (.tensor t)).2.mul
        (prox (x.div (proxConvexConj prox x (.tensor t)).2)
          (proxConvexConj prox x (.tensor t)).2.recip))) := by
  constructor
  · intro i c hi
    simp [proxConvexConj, h, SigmaArg.toTensor, hi, clampEntry]
  · simp [proxConvexConj, h, SigmaArg.toTensor]

/-- Claim C6 witness: a zero entry of a validated `sigma` tensor is observed
as `1e-6` after the call. -/
theorem prox_convex_conj_clamps_sigma_witness :
    (proxConvexConj (fun t _ => t) ⟨[1], [(1, 0)], false⟩
      (.tensor ⟨[1], [(0, 0)], false⟩)).2.data[0]? = some ((0 : ℚ) + sigmaBump, 0) := by
  have h := (prox_convex_conj_clamps_sigma (fun t _ => t) ⟨[1], [(1, 0)], false⟩
    ⟨[1], [(0, 0)], false⟩ (by simp [throwIfNegativeOrComplex, checkPasses])).1 0 (0, 0) rfl
  rw [h, if_pos (by norm_num [smallSigma])]

/-- Claim C9: when the `sigma` tensor has a complex dtype or contains a
negative entry, `prox_convex_conj` raises the validation error before the
small-entry clamp, leaving the caller's `sigma` tensor unchanged. -/
theorem prox_convex_conj_invalid_sigma (prox : Tensor → Tensor → Tensor) (x t : Tensor)
    (h : t.isComplex = true ∨ ∃ c ∈ t.data, c.1 < 0) :
    (proxConvexConj prox x (.tensor t)).1 = .error sigmaMessage ∧
    (proxConvexConj prox x (.tensor t)).2 = t := by
  have hfail : ¬checkPasses (.tensor t) := by
    rcases h with h | ⟨c, hc, hneg⟩
    · intro hp
      rw [hp.1] at h
      exact Bool.false_ne_true h
    · intro hp
      exact absurd (hp.2 c hc) (not_le.mpr hneg)
  have hval : throwIfNegativeOrComplex (.tensor t) sigmaMessage = .error sigmaMessage := by
    simp [throwIfNegativeOrComplex, hfail]
  constructor <;> simp [proxConvexConj, hval, SigmaArg.toTensor]

/-- Claim C9 witness: a `sigma` tensor with a negative entry is returned
unchanged alongside the raised validation error. -/
theorem prox_convex_conj_invalid_sigma_witness :
    (proxConvexConj (fun t _ => t) ⟨[1], [(1, 0)], false⟩
      (.tensor ⟨[1], [(-1, 0)], false⟩)).2 = ⟨[1], [(-1, 0)], false⟩ :=
  (prox_convex_conj_invalid_sigma (fun t _ => t) ⟨[1], [(1, 0)], false⟩ ⟨[1], [(-1, 0)], false⟩
    (Or.inr ⟨(-1, 0), by simp, by norm_num⟩)).2

/-- Claim C10: the clamp of `prox_convex_conj` only modifies entries of a
valid `sigma` tensor that are strictly below `1e-8`; entries at or above
`1e-8` are left exactly unchanged, and a tensor whose every entry is at least
`1e-8` is not mutated at all. -/
theorem prox_convex_conj_frame (prox : Tensor → Tensor → Tensor) (x t : Tensor)
    (h : throwIfNegativeOrComplex (.tensor t) sigmaMessage = .ok ()) :
    (∀ (i : ℕ) (c : Cq), t.data[i]? = some c → smallSigma ≤ c.1 →
      (proxConvexConj prox x (.tensor t)).2.data[i]? = some c) ∧
    ((∀ c ∈ t.data, smallSigma ≤ c.1) → (proxConvexConj prox x (.tensor t)).2 = t) := by
  constructor
  · intro i c hi hc
    simp [proxConvexConj, h, SigmaArg.toTensor, hi, clampEntry, not_lt.mpr hc]
  · intro hall
    have hclamp : t.data.map clampEntry = t.data :=
      aux_map_fix _ _ (fun c hc => if_neg (not_lt.mpr (hall c hc)))
    simp [proxConvexConj, h, SigmaArg.toTensor, hclamp]

/-- Claim C10 witness: an entry equal to `1e-8` of a validated `sigma` tensor
is left unchanged by the call. -/
theorem prox_convex_conj_frame_witness :
    (proxConvexConj (fun t _ => t) ⟨[1], [(1, 0)], false⟩
      (.tensor ⟨[1], [(smallSigma, 0)], false⟩)).2.data[0]? = some (smallSigma, 0) :=
  (prox_convex_conj_frame (fun t _ => t) ⟨[1], [(1, 0)], false⟩ ⟨[1], [(smallSigma, 0)], false⟩
    (by simp [throwIfNegativeOrComplex, checkPasses]; norm_num [smallSigma])).1
    0 (smallSigma, 0) rfl (le_refl smallSigma)

/-- Claim C1 witness: for `sigma = 1.0` the Moreau identity output is
computed with the unchanged `sigma`. -/
theorem prox_convex_conj_moreau_witness :
    proxConvexConj (fun t _ => t) ⟨[], [(1, 0)], false⟩ (SigmaArg.scalar 1) =
      (.ok ⟨[], [(0, 0)], false⟩, ⟨[], [(1, 0)], false⟩) := by
  have h := prox_convex_conj_moreau (fun t _ => t) ⟨[], [(1, 0)], false⟩ (SigmaArg.scalar 1)
    (by norm_num [SigmaArg.clampFree, smallSigma])
  rw [h]
  norm_num [SigmaArg.toTensor, Tensor.sub, Tensor.mul, Tensor.div, Tensor.recip, Tensor.ew,
    cmul, cdiv, Prod.ext_iff]

/-- Claim C4 witness: on a `2x3` tensor with `dim=(1,)` the divisor is the
size 3 of axis 1. -/
theorem divide_by_n_true_spec_witness :
    (mkElementaryFunctional ⟨[], [(1, 0)], false⟩ Option.none (.int 1) true
      false).divideByN ⟨[2, 3], List.replicate 6 (1, 0), false⟩ Option.none =
      some (Tensor.divScalar ⟨[2, 3], List.replicate 6 (1, 0), false⟩ ((3 : ℕ) : ℚ)) :=
  (divide_by_n_true_spec ⟨[], [(1, 0)], false⟩ Option.none (.int 1) false
    ⟨[2, 3], List.replicate 6 (1, 0), false⟩ Option.none).2.2 1 3 rfl rfl

/-- Claim C2: `dotproduct_adjointness_test` returns without raising iff both
shape assertions hold and the flattened inner products `<forward(u), v>` and
`<u, adjoint(v)>` are close within the given tolerances; the forward-shape
assertion is checked first and the adjoint-shape assertion second, both
before the inner-product comparison. -/
theorem dotproduct_adjointness_spec (forward adjoint : Tensor → Tensor) (u v : Tensor)
    (rtol atol : ℚ) :
    (dotproductAdjointnessTest forward adjoint u v rtol atol = .ok () ↔
      (forward u).shape = v.shape ∧ (adjoint v).shape = u.shape ∧
        assertCloseOk (vdot (forward u).data v.data) (vdot u.data (adjoint v).data)
          rtol atol = true) ∧
    ((forward u).shape ≠ v.shape →
      dotproductAdjointnessTest forward adjoint u v rtol atol = .error .forwardShape) ∧
    ((forward u).shape = v.shape → (adjoint v).shape ≠ u.shape →
      dotproductAdjointnessTest forward adjoint u v rtol atol = .error .adjointShape) := by
  unfold dotproductAdjointnessTest
  dsimp only
  split_ifs with h1 h2 h3 <;> simp_all

/-- Claim C2 witness: the identity operator with `u = v` passes the test. -/
theorem dotproduct_adjointness_spec_witness :
    dotproductAdjointnessTest id id ⟨[1], [(1, 0)], false⟩ ⟨[1], [(1, 0)], false⟩ 0 0 =
      .ok () :=
  (dotproduct_adjointness_spec id id ⟨[1], [(1, 0)], false⟩ ⟨[1], [(1, 0)], false⟩ 0 0).1.mpr
    ⟨rfl, rfl, by norm_num [assertCloseOk, vdot, cmul, cconj, Prod.fst_add, Prod.snd_add]⟩

/-- Claim C7: `relative_image_difference(img1, img2)` raises a `ValueError`
iff `0.5 * mean(|img1| + |img2|)` is exactly zero; otherwise it returns the
mean absolute difference divided by that quantity, and in particular it
returns 0 on two copies of an image of nonzero mean magnitude. -/
theorem relative_image_difference_spec (img1 img2 : RImage)
    (_hshape : img1.shape = img2.shape) (_hlen : img1.data.length = img2.data.length)
    (_hne : img1.data ≠ []) :
    (relativeImageDifference img1 img2 = .error "average of images should be larger than 0" ↔
      (1 / 2 : ℚ) * tmean (List.zipWith (fun a b => |a| + |b|) img1.data img2.data) = 0) ∧
    ((1 / 2 : ℚ) * tmean (List.zipWith (fun a b => |a| + |b|) img1.data img2.data) ≠ 0 →
      relativeImageDifference img1 img2 =
        .ok (tmean (List.zipWith (fun a b => |a - b|) img1.data img2.data) /
          ((1 / 2 : ℚ) * tmean (List.zipWith (fun a b => |a| + |b|) img1.data img2.data)))) ∧
    (tmean (img1.data.map (fun a => |a|)) ≠ 0 →
      relativeImageDifference img1 img1 = .ok 0) := by
  refine ⟨?_, ?_, ?_⟩
  · by_cases hm : (1 / 2 : ℚ) *
        tmean (List.zipWith (fun a b => |a| + |b|) img1.data img2.data) = 0 <;>
      simp [relativeImageDifference, hm]
  · intro hm
    have hm2 : tmean (List.zipWith (fun a b => |a| + |b|) img1.data img2.data) ≠ 0 := by
      intro h0
      exact hm (by rw [h0]; ring)
    simp [relativeImageDifference, hm2]
  · intro hm
    have hdiff : List.zipWith (fun a b => |a - b|) img1.data img1.data =
        img1.data.map (fun _ => (0 : ℚ)) := by
      rw [aux_zipWith_self]
      exact List.map_congr_left (fun a _ => by simp)
    have hmag : List.zipWith (fun a b => |a| + |b|) img1.data img1.data =
        img1.data.map (fun a => |a| + |a|) := aux_zipWith_self _ _
    have h1 : tmean (img1.data.map fun _ => (0 : ℚ)) = 0 := by
      simp [tmean, aux_sum_map_zero]
    have h2 : (1 / 2 : ℚ) * tmean (img1.data.map fun a => |a| + |a|) =
        tmean (img1.data.map fun a => |a|) := by
      simp only [tmean, aux_sum_map_double, List.length_map]
      ring
    simp only [relativeImageDifference, hdiff, hmag, h1, h2]
    rw [if_neg hm]
    simp

/-- Claim C7 witness: a two-pixel image of values 1 and -1 compared with
itself gives relative difference 0. -/
theorem relative_image_difference_spec_witness :
    relativeImageDifference ⟨[2], [1, -1]⟩ ⟨[2], [1, -1]⟩ = .ok 0 :=
  (relative_image_difference_spec ⟨[2], [1, -1]⟩ ⟨[2], [1, -1]⟩ rfl rfl (by simp)).2.2
    (by norm_num [tmean])

end Mrpro
